import Mathlib

/-!
Verification development for the `imap-cleaning-tool` repository.

The Go source is shallowly embedded here.  Go strings that are only
compared for equality (folder names, ports) are modelled as Lean
`String`s or `List Char`; strings whose byte-level structure matters
(classification keys, subjects, match text) are modelled as byte lists
(`List Nat`), matching Go's `len`/slicing semantics which operate on
bytes.  External network and server behaviour (which TLS handshakes
succeed, which hosts are reachable, what a folder search returns) is
passed in as explicit oracle parameters, so every theorem quantifies
over all possible environment behaviours.
-/

namespace ImapTool

/-! Byte-string helpers: fragments of the Go `strings` package. -/

/-- ASCII lower-casing of a single byte, the ASCII fragment of Go's
`strings.ToLower`. -/
def goToLower (b : Nat) : Nat :=
  if 65 ≤ b ∧ b ≤ 90 then b + 32 else b

/-- Model of `strings.ToLower` on a byte string (ASCII fragment). -/
def lowerBytes (s : List Nat) : List Nat :=
  s.map goToLower

/-- Model of `strings.Contains`: substring containment on byte strings. -/
def containsSub (hay ndl : List Nat) : Bool :=
  match hay with
  | [] => ndl.isEmpty
  | _ :: t => ndl.isPrefixOf hay || containsSub t ndl

/-! Messages and classification: `classify`, lines 338-357. -/

/-- Model of `imap.Address`: the fields `classify` reads. -/
structure Address where
  mailboxName : List Nat
  hostName : List Nat
deriving DecidableEq

/-- Envelope fields used by `classify`. -/
structure Envelope where
  From : List Address
  To : List Address
  Subject : List Nat
deriving DecidableEq

/-- The message fields the scan loop reads. -/
structure Message where
  Envelope : Envelope
  SeqNum : Nat
  Size : Nat
deriving DecidableEq

/-- Bytes of the sentinel string `"(none)"`. -/
def noneKey : List Nat := [40, 110, 111, 110, 101, 41]

/-- Bytes of the UTF-8 ellipsis marker appended by `classify`. -/
def ellipsisBytes : List Nat := [226, 128, 166]

/-- The `addr` closure inside `classify`: renders the first address as
`mailbox@host`, or `"(none)"` when the list is empty. -/
def addrKey : List Address → List Nat
  | [] => noneKey
  | a :: _ => a.mailboxName ++ [64] ++ a.hostName

/-- Model of Go's `classify`: derives the classification key for a message from
the selected field.  Subject truncation follows Go exactly: `len` and
slicing count BYTES. -/
def classify (m : Message) (fld : String) : List Nat :=
  if fld = "to" then addrKey m.Envelope.To
  else if fld = "subject" then
    (if 60 < m.Envelope.Subject.length
     then m.Envelope.Subject.take 57 ++ ellipsisBytes
     else m.Envelope.Subject)
  else addrKey m.Envelope.From

/-- Whether a byte is a UTF-8 continuation byte. -/
def isContinuationByte (b : Nat) : Bool :=
  128 ≤ b && b < 192

/-- Character count of a UTF-8 byte string: the number of
non-continuation bytes. -/
def utf8Length (bs : List Nat) : Nat :=
  (bs.filter (fun b => !isContinuationByte b)).length

/-! The stats bucket: `bucket` and `bucket.add`, lines 361-372. -/

/-- Model of the Go struct `bucket`.  `ByFolder` is Go's
`map[string][]uint32`, modelled as an association list whose key order
is insertion order; all theorems that depend on the absence of
duplicate keys state or establish that separately. -/
structure bucket where
  Key : List Nat
  Cnt : Nat
  Bytes : Nat
  ByFolder : List (String × List Nat)
deriving DecidableEq

/-- Model of `b.ByFolder[folder] = append(b.ByFolder[folder], uid)`: update the
entry for `folder`, creating it at the end when absent (Go map update). -/
def appendAt : List (String × List Nat) → String → Nat → List (String × List Nat)
  | [], f, uid => [(f, [uid])]
  | (g, l) :: rest, f, uid =>
    if g = f then (g, l ++ [uid]) :: rest else (g, l) :: appendAt rest f uid

/-- Model of Go's `bucket.add`. -/
def bucket.add (b : bucket) (folder : String) (uid : Nat) (sz : Nat) : bucket :=
  { b with
    Cnt := b.Cnt + 1
    Bytes := b.Bytes + sz
    ByFolder := appendAt b.ByFolder folder uid }

/-- A fresh, empty bucket for key `k` (as built in `main`). -/
def bucket.empty (k : List Nat) : bucket :=
  { Key := k, Cnt := 0, Bytes := 0, ByFolder := [] }

/-- Go map lookup `m[f]` on the association-list model (zero value `[]`
when absent). -/
def lookupF : List (String × List Nat) → String → List Nat
  | [], _ => []
  | (g, l) :: rest, f => if g = f then l else lookupF rest f

/-- Total number of ids stored across all `ByFolder` lists. -/
def totalIds (m : List (String × List Nat)) : Nat :=
  (m.map (fun e => e.2.length)).sum

/-- Apply a sequence of `add` operations `(folder, uid, size)` to a
bucket, in order. -/
def applyAdds (b : bucket) (ops : List (String × Nat × Nat)) : bucket :=
  ops.foldl (fun b o => b.add o.1 o.2.1 o.2.2) b

/-! Scan and classify engine: the main loop, lines 600-641.

A scan input is the per-folder list of fetched messages: whatever the
server-side search returned and the fetch stream delivered.  The
theorems quantify over arbitrary such inputs, so no assumption is made
about the server search being precise. -/

/-- One folder's worth of scan input: folder name and fetched messages. -/
def FolderMsgs := List (String × List Message)

/-- Insert one observed message into the stats bucket map: lazily
creates the bucket for `key` when absent (appended, preserving
insertion order), otherwise calls `add` on the existing bucket. -/
def addToBuckets : List bucket → List Nat → String → Nat → Nat → List bucket
  | [], key, f, uid, sz => [(bucket.empty key).add f uid sz]
  | b :: rest, key, f, uid, sz =>
    if b.Key = key then b.add f uid sz :: rest
    else b :: addToBuckets rest key f uid sz

/-- Stats-mode scan: fold every fetched message of every folder into
the bucket map, classifying by `fld`. -/
def scanStats (fld : String) (folders : List (String × List Message)) : List bucket :=
  folders.foldl
    (fun bs fm =>
      fm.2.foldl (fun bs m => addToBuckets bs (classify m fld) fm.1 m.SeqNum m.Size) bs)
    []

/-- The local re-verification test applied to each fetched message in
match mode (line 630). -/
def matchesText (fld : String) (mtext : List Nat) (m : Message) : Bool :=
  containsSub (lowerBytes (classify m fld)) (lowerBytes mtext)

/-- Match-mode scan: fold every fetched message into the single target
bucket when the local containment re-check passes. -/
def scanMatch (fld : String) (mtext : List Nat) (folders : List (String × List Message)) : bucket :=
  folders.foldl
    (fun tgt fm =>
      fm.2.foldl
        (fun t m => if matchesText fld mtext m then t.add fm.1 m.SeqNum m.Size else t)
        tgt)
    (bucket.empty mtext)

/-! Sorted group list, lines 663-673.

Go builds `list` by ranging over the `buckets` map — an iteration whose
order the language leaves unspecified (and randomizes in practice) —
and then applies `sort.Slice`, which is not guaranteed stable.  The
model therefore takes the extraction order as an explicit parameter
`iter` (any permutation of the buckets) and applies a sort that is
correct for the comparison `Cnt` descending.  `List.mergeSort` is used;
it is stable, so any ordering property refuted in this model under some
valid `iter` also fails for the Go code. -/

/-- Model of the `sort.Slice` call comparing `Cnt` descending,
applied to the map-extraction order `iter`. -/
def sortedGroups (iter : List bucket) : List bucket :=
  iter.mergeSort (fun a b => b.Cnt ≤ a.Cnt)

/-! Transport negotiation: `dialSmart`, lines 390-429. -/

/-- The three transport-security tiers. -/
inductive Tier where
  | modern
  | legacy
  | plain
deriving DecidableEq

/-- Network oracle: whether each tier's handshake would succeed against
the server (`modernOk`/`legacyOk` cover `DialTLS` on 993 resp.
`Dial`+`StartTLS` on 143 with that tier's config; `plainOk` covers the
final plaintext `Dial`). -/
structure Net where
  modernOk : Bool
  legacyOk : Bool
  plainOk : Bool

/-- The `connect` closure of `dialSmart` only ever succeeds on ports
`"993"` and `"143"`; on any other port it returns the `unsupported
port` error without touching the network. -/
def connectOk (net : Net) (port : String) : Tier → Bool
  | .modern => (port = "993" || port = "143") && net.modernOk
  | .legacy => (port = "993" || port = "143") && net.legacyOk
  | .plain => net.plainOk

/-- Model of Go's `dialSmart`: result and the ordered list of tiers attempted.
Modern is tried first, then legacy; the plaintext dial is reached only
when both TLS tiers failed, the port is `"143"`, and `-allow-plain` is
set. -/
def dialSmart (net : Net) (port : String) (allowPlain : Bool) :
    Except String Tier × List Tier :=
  if connectOk net port .modern then (.ok .modern, [.modern])
  else if connectOk net port .legacy then (.ok .legacy, [.modern, .legacy])
  else if port = "143" ∧ allowPlain = true then
    (if net.plainOk then .ok .plain else .error "dial failed",
     [.modern, .legacy, .plain])
  else (.error "TLS failed", [.modern, .legacy])

/-- Position of a tier in the strict-to-weak attempt order. -/
def tierRank : Tier → Nat
  | .modern => 0
  | .legacy => 1
  | .plain => 2

/-! Server resolver: `guessServer`, both variants.

Names are modelled as `List Char`.  The reachability oracle answers the
short TLS-probe for a candidate `host:port` string. -/

/-- Reachability oracle for the resolver's connectivity probes, plus
the domain's MX records in priority order (consulted only by the older
variant). -/
structure ResolveNet where
  reach : List Char → Bool
  mx : List (List Char)

/-- Model of `strings.Split(email, "@")[1]`: the text between the first `@` and
the following `@` (or end). -/
def domainOf (email : List Char) : List Char :=
  ((email.dropWhile (fun c => c ≠ '@')).drop 1).takeWhile (fun c => c ≠ '@')

/-- First candidate in `cands` that passes the reachability probe. -/
def firstReach (net : ResolveNet) : List (List Char) → Option (List Char)
  | [] => none
  | h :: t => if net.reach h then some h else firstReach net t

/-- The probe candidates of the fuller variant (lines 431-440):
prefix list `["imap.", "mail.", ""]`, each on `:993`. -/
def candidates993 (d : List Char) : List (List Char) :=
  ["imap.".data ++ d ++ ":993".data,
   "mail.".data ++ d ++ ":993".data,
   d ++ ":993".data]

/-- Model of `guessServer` in the fuller variant (lines 431-440): first
reachable candidate on `:993`, otherwise the bare domain on `:143`.
No MX lookup, and no error return. -/
def guessServer (email : List Char) (net : ResolveNet) : List Char :=
  match firstReach net (candidates993 (domainOf email)) with
  | some h => h
  | none => domainOf email ++ ":143".data

/-- The probe candidates of the older variant (lines 88-107): prefix
list `["imap.", "mail.", "mx.", "webmail.", ""]`, each on `:993`. -/
def candidatesV1 (d : List Char) : List (List Char) :=
  ["imap.".data ++ d ++ ":993".data,
   "mail.".data ++ d ++ ":993".data,
   "mx.".data ++ d ++ ":993".data,
   "webmail.".data ++ d ++ ":993".data,
   d ++ ":993".data]

/-- Model of `guessServer` in the older variant (lines 90-107): first reachable
prefixed candidate on `:993`; otherwise the top-priority MX host on
`:993`; otherwise the error `can't guess server`.  (The `mail.Parse`
step is outside this model: `email` is assumed already validated.) -/
def guessServerV1 (email : List Char) (net : ResolveNet) : Except String (List Char) :=
  match firstReach net (candidatesV1 (domainOf email)) with
  | some h => .ok h
  | none =>
    match net.mx with
    | m :: _ => .ok (m ++ ":993".data)
    | [] => .error "cant guess server"

/-! Interactive delete controller: the paging loop, lines 675-738. -/

/-- Page size, the Go constant `pageSz = 20`. -/
def pageSz : Nat := 20

/-- Commands the loop recognizes after lower-casing the input line:
`n`, `p`, `q`, a numeric selection, or anything unparsable. -/
inductive Cmd where
  | next
  | prev
  | quit
  | sel (k : Nat)
  | bad
deriving DecidableEq

/-- Loop state while a page is displayed: the (possibly already
shrunk) group list and the current page index. -/
structure PState where
  list : List bucket
  page : Nat
deriving DecidableEq

/-- The top-of-loop guard: when `page*pageSz` is at or past the end of
the list the loop prints `End` and returns, ending the session;
otherwise the page is displayed and a command is read. -/
def checkPage (st : PState) : PState ⊕ String :=
  if st.list.length ≤ st.page * pageSz then Sum.inr "End" else Sum.inl st

/-- The delete branch of the loop (lines 730-736): remove the bucket
at on-page position `k` (1-based), then pull the page index back by
one when it now points past the end of the shrunk list and is not the
first page. -/
def deleteSel (list : List bucket) (page k : Nat) : PState :=
  let pos := page * pageSz + k - 1
  let l := list.take pos ++ list.drop (pos + 1)
  { list := l
    page := if l.length ≤ page * pageSz ∧ 0 < page then page - 1 else page }

/-- Effect of one command read while a page is displayed, before the
next top-of-loop guard.  `confirm` is the operator's answer to the
per-group deletion prompt.  An out-of-range or unparsable selection
prints an error and leaves the state unchanged; a declined
confirmation likewise. -/
def applyCmd (st : PState) (c : Cmd) (confirm : Bool) : PState ⊕ String :=
  match c with
  | .next => Sum.inl { st with page := st.page + 1 }
  | .prev => Sum.inl { st with page := if 0 < st.page then st.page - 1 else st.page }
  | .quit => Sum.inr "quit"
  | .bad => Sum.inl st
  | .sel k =>
    if k < 1 ∨ min ((st.page + 1) * pageSz) st.list.length - st.page * pageSz < k then
      Sum.inl st
    else if confirm then
      Sum.inl (deleteSel st.list st.page k)
    else Sum.inl st

/-- One full loop iteration: apply the command, then run the
top-of-loop guard on the successor state. -/
def stepLoop (st : PState) (c : Cmd) (confirm : Bool) : PState ⊕ String :=
  match applyCmd st c confirm with
  | Sum.inl st1 => checkPage st1
  | Sum.inr m => Sum.inr m

/-! Archive serializer and deserializer: `backupAll` (lines 444-494)
and `restoreAll` (lines 496-527).

A mailbox is a list of selectable folders, each with its messages as
`(uid, raw bytes)` pairs in fetch order.  Archive entry names are
`folder/uid.eml`, built and then split exactly as the Go code does
(`fmt.Sprintf("%s/%d.eml", ...)` and `filepath.Dir`). -/

/-- One archive entry: tar header name and raw message bytes. -/
structure ArchiveEntry where
  name : List Char
  data : List Nat
deriving DecidableEq

/-- Decimal digit character, `'0' + d` for `d < 10`. -/
def digitChar (d : Nat) : Char := Char.ofNat (48 + d % 10)

/-- Fuel-driven decimal rendering helper (fuel ≥ number of digits). -/
def natCharsAux : Nat → Nat → List Char
  | 0, _ => []
  | fuel + 1, n =>
    if n < 10 then [digitChar n]
    else natCharsAux fuel (n / 10) ++ [digitChar (n % 10)]

/-- Decimal rendering of a natural number, Go's `%d` for a uid. -/
def natChars (n : Nat) : List Char := natCharsAux (n + 1) n

/-- Tar entry name `fmt.Sprintf("%s/%d.eml", folder, uid)`. -/
def entryName (folder : List Char) (uid : Nat) : List Char :=
  folder ++ '/' :: (natChars uid ++ ".eml".data)

/-- Everything before the last `/`, or `"."` when there is no `/`:
`filepath.Dir` restricted to names whose directory part is already
clean (no empty, `.` or `..` segments, no repeated or trailing
slashes) — the only names this development feeds it. -/
def dirOf (s : List Char) : List Char :=
  if '/' ∈ s then (((s.reverse.dropWhile (fun c => c ≠ '/')).drop 1)).reverse
  else ".".data

/-- Model of `backupAll`: stream one archive entry per message, in
folder order then fetch order, skipping folders whose search returned
no messages. -/
def backupAll (mbox : List (List Char × List (Nat × List Nat))) : List ArchiveEntry :=
  (mbox.map (fun fm => fm.2.map (fun m => ArchiveEntry.mk (entryName fm.1 m.1) m.2))).flatten

/-- Append one restored message to the target mailbox: create the
folder (at the end) if absent, then add the message at the end of its
list — `cli.Create` (idempotent) followed by `cli.Append`. -/
def appendMsg : List (List Char × List (List Nat)) → List Char → List Nat →
    List (List Char × List (List Nat))
  | [], f, d => [(f, [d])]
  | (g, l) :: rest, f, d =>
    if g = f then (g, l ++ [d]) :: rest else (g, l) :: appendMsg rest f d

/-- The restore loop with an explicit accumulator (the target
mailbox's state so far): process entries in stored order, deriving
each destination folder with `filepath.Dir` and defaulting to `INBOX`
at the archive root. -/
def restoreInto (acc : List (List Char × List (List Nat))) (archive : List ArchiveEntry) :
    List (List Char × List (List Nat)) :=
  archive.foldl
    (fun acc e =>
      appendMsg acc (if dirOf e.name = ".".data then "INBOX".data else dirOf e.name) e.data)
    acc

/-- Model of `restoreAll` on an initially empty target mailbox. -/
def restoreAll (archive : List ArchiveEntry) : List (List Char × List (List Nat)) :=
  restoreInto [] archive

/-- Folder-name side conditions under which `filepath.Dir` is exactly
`dirOf` and the restore default never fires: nonempty, slash-free, not
`.` or `..`. -/
def cleanName (f : List Char) : Prop :=
  f ≠ [] ∧ '/' ∉ f ∧ f ≠ ".".data ∧ f ≠ "..".data

instance (f : List Char) : Decidable (cleanName f) := by
  unfold cleanName; infer_instance

/-! Helper lemmas about the `ByFolder` association list. -/

theorem totalIds_appendAt (m : List (String × List Nat)) (f : String) (uid : Nat) :
    totalIds (appendAt m f uid) = totalIds m + 1 := by
  induction m with
  | nil => simp [appendAt, totalIds]
  | cons e rest ih =>
    obtain ⟨g, l⟩ := e
    by_cases h : g = f
    · simp [appendAt, h, totalIds]
      omega
    · simp [appendAt, h, totalIds] at ih ⊢
      omega

theorem lookupF_appendAt (m : List (String × List Nat)) (f g : String) (uid : Nat) :
    lookupF (appendAt m f uid) g =
      if g = f then lookupF m g ++ [uid] else lookupF m g := by
  induction m with
  | nil =>
    by_cases h : g = f
    · subst h; simp [appendAt, lookupF]
    · have h' : ¬ f = g := fun e => h e.symm
      simp [appendAt, lookupF, h, h']
  | cons e rest ih =>
    obtain ⟨g', l⟩ := e
    by_cases h1 : g' = f
    · subst h1
      by_cases h2 : g' = g
      · subst h2; simp [appendAt, lookupF]
      · have h2' : ¬ g = g' := fun e => h2 e.symm
        simp [appendAt, lookupF, h2, h2']
    · by_cases h2 : g' = g
      · subst h2
        have h2' : ¬ g' = f := h1
        simp [appendAt, lookupF, h2']
      · simp [appendAt, lookupF, h1, h2, ih]

/-- C10 witness helper: a concrete op sequence. -/
def opsC10 : List (String × Nat × Nat) :=
  [("INBOX", 1, 100), ("Sent", 2, 50), ("INBOX", 7, 25)]

theorem applyAdds_counters (ops : List (String × Nat × Nat)) (b : bucket) :
    (applyAdds b ops).Cnt = b.Cnt + ops.length ∧
    (applyAdds b ops).Bytes = b.Bytes + (ops.map (fun o => o.2.2)).sum ∧
    totalIds (applyAdds b ops).ByFolder = totalIds b.ByFolder + ops.length := by
  induction ops generalizing b with
  | nil => simp [applyAdds]
  | cons o rest ih =>
    obtain ⟨f, uid, sz⟩ := o
    obtain ⟨h1, h2, h3⟩ := ih (b.add f uid sz)
    simp only [applyAdds, List.foldl_cons] at h1 h2 h3 ⊢
    refine ⟨?_, ?_, ?_⟩
    · rw [h1]; simp [bucket.add]; omega
    · rw [h2]; simp [bucket.add]; omega
    · rw [h3]; simp [bucket.add, totalIds_appendAt]; omega

/-- **C10**: after any sequence of `add(folder, id, size)` operations on
an initially empty bucket, `Cnt` equals the total number of ids stored
across all `ByFolder` lists and also equals the number of operations,
and `Bytes` equals the sum of all added sizes; moreover every single
`add` increments `Cnt` by exactly one and appends exactly one id to
exactly the chosen folder's list, leaving every other folder's list
unchanged. -/
theorem C10_bucket_invariant (k : List Nat) (ops : List (String × Nat × Nat)) :
    (applyAdds (bucket.empty k) ops).Cnt = totalIds (applyAdds (bucket.empty k) ops).ByFolder ∧
    (applyAdds (bucket.empty k) ops).Cnt = ops.length ∧
    (applyAdds (bucket.empty k) ops).Bytes = (ops.map (fun o => o.2.2)).sum ∧
    (∀ (b : bucket) (f : String) (uid sz : Nat),
      (b.add f uid sz).Cnt = b.Cnt + 1 ∧
      totalIds (b.add f uid sz).ByFolder = totalIds b.ByFolder + 1 ∧
      lookupF (b.add f uid sz).ByFolder f = lookupF b.ByFolder f ++ [uid] ∧
      ∀ g, g ≠ f → lookupF (b.add f uid sz).ByFolder g = lookupF b.ByFolder g) := by
  obtain ⟨h1, h2, h3⟩ := applyAdds_counters ops (bucket.empty k)
  refine ⟨?_, ?_, ?_, ?_⟩
  · rw [h1, h3]; simp [bucket.empty, totalIds]
  · rw [h1]; simp [bucket.empty]
  · rw [h2]; simp [bucket.empty]
  · intro b f uid sz
    refine ⟨rfl, ?_, ?_, ?_⟩
    · simp [bucket.add, totalIds_appendAt]
    · simp [bucket.add, lookupF_appendAt]
    · intro g hg
      simp [bucket.add, lookupF_appendAt, hg]

/-- Closed witness for `C10_bucket_invariant`, discharging its inner
hypotheses at concrete values. -/
theorem C10_bucket_invariant_witness :
    lookupF ((bucket.empty []).add "Sent" 9 5).ByFolder "INBOX" =
      lookupF (bucket.empty []).ByFolder "INBOX" ∧
    (applyAdds (bucket.empty []) opsC10).Cnt = 3 := by
  constructor
  · exact ((C10_bucket_invariant [] opsC10).2.2.2 (bucket.empty []) "Sent" 9 5).2.2.2
      "INBOX" (by decide)
  · rw [(C10_bucket_invariant [] opsC10).2.1]; decide

/-! Match-mode counting: claim C3. -/

theorem foldMatch_cnt (fld : String) (mtext : List Nat) (f : String)
    (msgs : List Message) (t : bucket) :
    (msgs.foldl
        (fun t m => if matchesText fld mtext m then t.add f m.SeqNum m.Size else t) t).Cnt
      = t.Cnt + (msgs.filter (matchesText fld mtext)).length := by
  induction msgs generalizing t with
  | nil => simp
  | cons m rest ih =>
    rw [List.foldl_cons]
    by_cases h : matchesText fld mtext m
    · rw [if_pos h, ih]
      simp [List.filter_cons, h, bucket.add]
      omega
    · rw [if_neg h, ih]
      simp [List.filter_cons, h]

/-- **C3**: for every completed match-mode scan over any folder set
(whatever candidate messages the server-side search produced), the
target group's `Cnt` equals the number of fetched messages whose
classification value, lower-cased, contains the lower-cased match
text. -/
theorem C3_match_count (fld : String) (mtext : List Nat)
    (folders : List (String × List Message)) :
    (scanMatch fld mtext folders).Cnt =
      (folders.map
        (fun fm =>
          (fm.2.filter
            (fun m => containsSub (lowerBytes (classify m fld)) (lowerBytes mtext))).length)).sum := by
  suffices h : ∀ t : bucket,
      (folders.foldl
        (fun tgt fm =>
          fm.2.foldl
            (fun t m => if matchesText fld mtext m then t.add fm.1 m.SeqNum m.Size else t)
            tgt) t).Cnt
      = t.Cnt + (folders.map
          (fun fm => (fm.2.filter (matchesText fld mtext)).length)).sum by
    have := h (bucket.empty mtext)
    simp [bucket.empty] at this
    simpa [scanMatch, matchesText] using this
  intro t
  induction folders generalizing t with
  | nil => simp
  | cons fm rest ih =>
    simp only [List.foldl_cons, List.map_cons, List.sum_cons]
    rw [ih, foldMatch_cnt]
    omega

/-! Stats-mode aggregation: claim C4. -/

theorem sumCnt_addToBuckets (bs : List bucket) (key : List Nat) (f : String) (uid sz : Nat) :
    ((addToBuckets bs key f uid sz).map bucket.Cnt).sum = (bs.map bucket.Cnt).sum + 1 := by
  induction bs with
  | nil => simp [addToBuckets, bucket.add, bucket.empty]
  | cons b rest ih =>
    by_cases h : b.Key = key
    · simp [addToBuckets, h, bucket.add]
      omega
    · simp [addToBuckets, h, ih]
      omega

theorem keys_addToBuckets (bs : List bucket) (key : List Nat) (f : String) (uid sz : Nat) :
    (addToBuckets bs key f uid sz).map bucket.Key =
      if key ∈ bs.map bucket.Key then bs.map bucket.Key
      else bs.map bucket.Key ++ [key] := by
  induction bs with
  | nil => simp [addToBuckets, bucket.add, bucket.empty]
  | cons b rest ih =>
    by_cases h : b.Key = key
    · simp [addToBuckets, h, bucket.add]
    · simp only [addToBuckets, if_neg h, List.map_cons, List.mem_cons, ih]
      have h' : ¬ key = b.Key := fun e => h e.symm
      by_cases h2 : key ∈ rest.map bucket.Key <;> simp [h2, h']

theorem nodup_keys_addToBuckets (bs : List bucket) (key : List Nat) (f : String) (uid sz : Nat)
    (h : (bs.map bucket.Key).Nodup) :
    ((addToBuckets bs key f uid sz).map bucket.Key).Nodup := by
  rw [keys_addToBuckets]
  by_cases h2 : key ∈ bs.map bucket.Key
  · simpa [h2]
  · have hd : (bs.map bucket.Key).Disjoint [key] := by
      intro a ha hb
      rw [List.mem_singleton] at hb
      subst hb
      exact h2 ha
    simpa [h2] using List.Nodup.append h (List.nodup_singleton key) hd

theorem mem_keys_addToBuckets (bs : List bucket) (key k : List Nat) (f : String) (uid sz : Nat) :
    (k ∈ (addToBuckets bs key f uid sz).map bucket.Key) ↔
      (k ∈ bs.map bucket.Key ∨ k = key) := by
  rw [keys_addToBuckets]
  by_cases h2 : key ∈ bs.map bucket.Key
  · rw [if_pos h2]
    constructor
    · exact Or.inl
    · rintro (hk | rfl)
      · exact hk
      · exact h2
  · simp [h2]

theorem sumCnt_foldMsgs (fld f : String) (msgs : List Message) (bs : List bucket) :
    ((msgs.foldl (fun bs m => addToBuckets bs (classify m fld) f m.SeqNum m.Size) bs).map
        bucket.Cnt).sum
      = (bs.map bucket.Cnt).sum + msgs.length := by
  induction msgs generalizing bs with
  | nil => simp
  | cons m rest ih =>
    rw [List.foldl_cons, ih, sumCnt_addToBuckets]
    simp only [List.length_cons]
    omega

theorem nodup_foldMsgs (fld f : String) (msgs : List Message) (bs : List bucket)
    (h : (bs.map bucket.Key).Nodup) :
    (((msgs.foldl (fun bs m => addToBuckets bs (classify m fld) f m.SeqNum m.Size) bs).map
        bucket.Key)).Nodup := by
  induction msgs generalizing bs with
  | nil => simpa using h
  | cons m rest ih =>
    rw [List.foldl_cons]
    exact ih _ (nodup_keys_addToBuckets bs (classify m fld) f m.SeqNum m.Size h)

theorem mem_keys_foldMsgs (fld f : String) (msgs : List Message) (bs : List bucket)
    (k : List Nat) :
    (k ∈ (msgs.foldl (fun bs m => addToBuckets bs (classify m fld) f m.SeqNum m.Size) bs).map
        bucket.Key) ↔
      (k ∈ bs.map bucket.Key ∨ ∃ m ∈ msgs, classify m fld = k) := by
  induction msgs generalizing bs with
  | nil => simp
  | cons m rest ih =>
    rw [List.foldl_cons, ih, mem_keys_addToBuckets]
    simp only [List.mem_cons]
    constructor
    · rintro ((hk | rfl) | ⟨m', hm', rfl⟩)
      · exact Or.inl hk
      · exact Or.inr ⟨m, Or.inl rfl, rfl⟩
      · exact Or.inr ⟨m', Or.inr hm', rfl⟩
    · rintro (hk | ⟨m', (rfl | hm'), rfl⟩)
      · exact Or.inl (Or.inl hk)
      · exact Or.inl (Or.inr rfl)
      · exact Or.inr ⟨m', hm', rfl⟩

theorem sumCnt_foldFolders (fld : String) (folders : List (String × List Message))
    (bs : List bucket) :
    ((folders.foldl
        (fun bs fm =>
          fm.2.foldl (fun bs m => addToBuckets bs (classify m fld) fm.1 m.SeqNum m.Size) bs)
        bs).map bucket.Cnt).sum
      = (bs.map bucket.Cnt).sum + (folders.map (fun fm => fm.2.length)).sum := by
  induction folders generalizing bs with
  | nil => simp
  | cons fm rest ih =>
    rw [List.foldl_cons, ih, sumCnt_foldMsgs]
    simp only [List.map_cons, List.sum_cons]
    omega

theorem nodup_foldFolders (fld : String) (folders : List (String × List Message))
    (bs : List bucket) (h : (bs.map bucket.Key).Nodup) :
    ((folders.foldl
        (fun bs fm =>
          fm.2.foldl (fun bs m => addToBuckets bs (classify m fld) fm.1 m.SeqNum m.Size) bs)
        bs).map bucket.Key).Nodup := by
  induction folders generalizing bs with
  | nil => simpa using h
  | cons fm rest ih =>
    rw [List.foldl_cons]
    exact ih _ (nodup_foldMsgs fld fm.1 fm.2 bs h)

theorem mem_keys_foldFolders (fld : String) (folders : List (String × List Message))
    (bs : List bucket) (k : List Nat) :
    (k ∈ (folders.foldl
        (fun bs fm =>
          fm.2.foldl (fun bs m => addToBuckets bs (classify m fld) fm.1 m.SeqNum m.Size) bs)
        bs).map bucket.Key) ↔
      (k ∈ bs.map bucket.Key ∨ ∃ fm ∈ folders, ∃ m ∈ fm.2, classify m fld = k) := by
  induction folders generalizing bs with
  | nil => simp
  | cons fm rest ih =>
    rw [List.foldl_cons, ih, mem_keys_foldMsgs]
    simp only [List.mem_cons]
    constructor
    · rintro ((hk | ⟨m, hm, rfl⟩) | ⟨fm', hfm', m, hm, rfl⟩)
      · exact Or.inl hk
      · exact Or.inr ⟨fm, Or.inl rfl, m, hm, rfl⟩
      · exact Or.inr ⟨fm', Or.inr hfm', m, hm, rfl⟩
    · rintro (hk | ⟨fm', (rfl | hfm'), m, hm, rfl⟩)
      · exact Or.inl (Or.inl hk)
      · exact Or.inl (Or.inr ⟨m, hm, rfl⟩)
      · exact Or.inr ⟨fm', hfm', m, hm, rfl⟩

/-- **C4**: for every completed statistics scan, the sum of `Cnt` over
all buckets equals the total number of messages observed across all
folders; every bucket key is unique; and the keys are exactly the
classification values observed (one bucket per distinct value, created
lazily when first observed). -/
theorem C4_stats_invariant (fld : String) (folders : List (String × List Message)) :
    ((scanStats fld folders).map bucket.Cnt).sum = (folders.map (fun fm => fm.2.length)).sum ∧
    ((scanStats fld folders).map bucket.Key).Nodup ∧
    (∀ k, k ∈ (scanStats fld folders).map bucket.Key ↔
      ∃ fm ∈ folders, ∃ m ∈ fm.2, classify m fld = k) := by
  refine ⟨?_, ?_, ?_⟩
  · rw [scanStats, sumCnt_foldFolders]
    simp
  · exact nodup_foldFolders fld folders [] (by simp)
  · intro k
    rw [scanStats, mem_keys_foldFolders]
    simp

/-! Transport negotiation: claim C1. -/

/-- **C1**: `dialSmart` attempts modern TLS first; the legacy tier is
attempted exactly when modern failed; the plaintext dial is attempted
exactly when both TLS tiers failed, the port is `"143"` and the
insecure opt-in is set; the returned session is the first attempted
tier that works; and when every attempted tier fails the result is an
error. -/
theorem C1_dialSmart_policy (net : Net) (port : String) (ap : Bool) :
    (dialSmart net port ap).2.head? = some Tier.modern ∧
    (Tier.legacy ∈ (dialSmart net port ap).2 ↔ connectOk net port Tier.modern = false) ∧
    (Tier.plain ∈ (dialSmart net port ap).2 ↔
      (connectOk net port Tier.modern = false ∧ connectOk net port Tier.legacy = false ∧
        port = "143" ∧ ap = true)) ∧
    ((dialSmart net port ap).1 = Except.ok Tier.modern ↔
      connectOk net port Tier.modern = true) ∧
    ((dialSmart net port ap).1 = Except.ok Tier.legacy ↔
      (connectOk net port Tier.modern = false ∧ connectOk net port Tier.legacy = true)) ∧
    ((dialSmart net port ap).1 = Except.ok Tier.plain ↔
      (connectOk net port Tier.modern = false ∧ connectOk net port Tier.legacy = false ∧
        port = "143" ∧ ap = true ∧ net.plainOk = true)) ∧
    ((∀ t ∈ (dialSmart net port ap).2, connectOk net port t = false) →
      ∃ e, (dialSmart net port ap).1 = Except.error e) := by
  obtain ⟨mo, lo, po⟩ := net
  by_cases h9 : port = "993"
  · subst h9
    cases mo <;> cases lo <;> cases po <;> cases ap <;>
      simp [dialSmart, connectOk]
  · by_cases h1 : port = "143"
    · subst h1
      cases mo <;> cases lo <;> cases po <;> cases ap <;>
        simp [dialSmart, connectOk]
    · cases mo <;> cases lo <;> cases po <;> cases ap <;>
        simp [dialSmart, connectOk, h9, h1]

/-- Closed witness for `C1_dialSmart_policy`: with every tier's
handshake failing on an unsupported port, negotiation errors out. -/
theorem C1_dialSmart_policy_witness :
    ∃ e, (dialSmart ⟨false, false, false⟩ "9999" false).1 = Except.error e :=
  (C1_dialSmart_policy ⟨false, false, false⟩ "9999" false).2.2.2.2.2.2 (by decide)

/-! Sorted group list: claim C7. -/

/-- Concrete message from sender `x@a` (used for C7). -/
def msgX : Message := ⟨⟨[⟨[120], [97]⟩], [], []⟩, 1, 10⟩

/-- Concrete message from sender `y@a` (used for C7). -/
def msgY : Message := ⟨⟨[⟨[121], [97]⟩], [], []⟩, 2, 10⟩

/-- Concrete one-folder scan input with `msgX` observed before `msgY`. -/
def cexFolders : List (String × List Message) := [("INBOX", [msgX, msgY])]

/-- The bucket the scan builds for sender `x@a`. -/
def bX : bucket := ⟨[120, 64, 97], 1, 10, [("INBOX", [1])]⟩

/-- The bucket the scan builds for sender `y@a`. -/
def bY : bucket := ⟨[121, 64, 97], 1, 10, [("INBOX", [2])]⟩

/-- **C7 counterexample**: the scan observes `bX` before `bY` (equal
counts), yet `[bY, bX]` is a legitimate map-extraction order of those
buckets — Go leaves map range order unspecified — and sorting that
order puts `bY` first even under a stable sort, so the group observed
first does NOT always appear first among equal counts. -/
theorem C7_stability_cex :
    scanStats "from" cexFolders = [bX, bY] ∧
    List.Perm [bY, bX] (scanStats "from" cexFolders) ∧
    bX.Cnt = bY.Cnt ∧ bX ≠ bY ∧
    sortedGroups [bY, bX] = [bY, bX] := by
  refine ⟨by decide, ?_, by decide, by decide, ?_⟩
  · have h : scanStats "from" cexFolders = [bX, bY] := by decide
    rw [h]
    exact List.Perm.swap bX bY []
  · simp [sortedGroups, List.mergeSort, List.merge, bX, bY]

/-- **C7 amended**: for every map-extraction order `iter` of the
scanned buckets `bs`, the displayed list is a permutation of `bs`
sorted descending by `Cnt`; the relative order of equal-count groups
is not specified (it depends on the unspecified map iteration order,
and the sort is not guaranteed stable). -/
theorem C7_sortedGroups_sorted (bs iter : List bucket) (h : List.Perm iter bs) :
    List.Perm (sortedGroups iter) bs ∧
    (sortedGroups iter).Pairwise (fun a b => b.Cnt ≤ a.Cnt) := by
  constructor
  · exact (List.mergeSort_perm iter _).trans h
  · have hp := @List.sorted_mergeSort bucket (fun a b => decide (b.Cnt ≤ a.Cnt))
      (fun a b c hab hbc => by
        simp only [decide_eq_true_iff] at hab hbc ⊢
        omega)
      (fun a b => by
        simp only [Bool.or_eq_true, decide_eq_true_iff]
        omega)
      iter
    exact hp.imp (fun hab => by simpa using hab)

/-- Closed witness for `C7_sortedGroups_sorted` at a concrete
extraction order. -/
theorem C7_sortedGroups_sorted_witness :
    List.Perm (sortedGroups [bX]) [bX] ∧
    (sortedGroups [bX]).Pairwise (fun a b => b.Cnt ≤ a.Cnt) :=
  C7_sortedGroups_sorted [bX] [bX] (List.Perm.refl [bX])

/-! Group deletion frame effect: claim C2. -/

/-- **C2**: after a confirmed selection of on-page index `k` (1-based,
within the displayed page), exactly the selected group — the one at
global position `page*pageSz + k - 1` — is removed: the shrunk list is
`eraseIdx` at that position, one element shorter, with every earlier
element (hence its `Cnt` and `Bytes`) untouched and every later
element shifted down by one but otherwise untouched; and the page
index is decremented by one exactly when it is then past the end of
the shrunk list and is not the first page. -/
theorem C2_delete_frame (list : List bucket) (page k : Nat)
    (hdisp : page * pageSz < list.length)
    (hk1 : 1 ≤ k)
    (hk2 : k ≤ min ((page + 1) * pageSz) list.length - page * pageSz) :
    (deleteSel list page k).list = list.eraseIdx (page * pageSz + k - 1) ∧
    (deleteSel list page k).list.length + 1 = list.length ∧
    (∀ j, j < page * pageSz + k - 1 → (deleteSel list page k).list[j]? = list[j]?) ∧
    (∀ j, page * pageSz + k - 1 ≤ j → (deleteSel list page k).list[j]? = list[j + 1]?) ∧
    (deleteSel list page k).page =
      (if list.length - 1 ≤ page * pageSz ∧ 0 < page then page - 1 else page) := by
  have hpos : page * pageSz + k - 1 < list.length := by omega
  have hlist : (deleteSel list page k).list = list.eraseIdx (page * pageSz + k - 1) := by
    simp [deleteSel, List.eraseIdx_eq_take_drop_succ]
  have hlen : (deleteSel list page k).list.length + 1 = list.length := by
    rw [hlist, List.length_eraseIdx_of_lt hpos]
    omega
  refine ⟨hlist, hlen, ?_, ?_, ?_⟩
  · intro j hj
    rw [hlist, List.getElem?_eraseIdx_of_lt _ _ _ hj]
  · intro j hj
    rw [hlist, List.getElem?_eraseIdx_of_ge _ _ _ hj]
  · simp only [deleteSel]
    have hcond : (List.take (page * pageSz + k - 1) list ++
        List.drop (page * pageSz + k - 1 + 1) list).length = list.length - 1 := by
      simp only [List.length_append, List.length_take, List.length_drop]
      omega
    rw [hcond]

/-- Closed witness for `C2_delete_frame`: deleting the single entry of
a one-page list. -/
theorem C2_delete_frame_witness :
    (deleteSel [bX, bY] 0 1).list = [bX, bY].eraseIdx 0 ∧
    (deleteSel [bX, bY] 0 1).page = 0 := by
  have h := C2_delete_frame [bX, bY] 0 1 (by decide) (by decide) (by decide)
  exact ⟨h.1, by rw [h.2.2.2.2]; decide⟩

/-! Pagination: claim C6. -/

/-- **C6 counterexample**: with a single one-page group list, the
`next` command does not retain the page state with an end-of-list
notice — it terminates the whole interactive session (the Go loop
prints `End` and returns). -/
theorem C6_next_terminates_cex :
    stepLoop ⟨[bX], 0⟩ Cmd.next true = Sum.inr "End" ∧
    stepLoop ⟨[bX], 0⟩ Cmd.next true ≠ Sum.inl ⟨[bX], 0⟩ := by
  constructor
  · simp [stepLoop, applyCmd, checkPage, pageSz, bX]
  · simp [stepLoop, applyCmd, checkPage, pageSz, bX]

/-- **C6 amended**: while the session continues, the page index stays
within `[0, ceil(N/pageSz) - 1]` (equivalently `page*pageSz < N` for
the current list); `previous` on page 0 is a no-op; but `next` on the
last page ends the session with the `End` notice instead of being a
no-op. -/
theorem C6_pagination (st : PState) (c : Cmd) (confirm : Bool) :
    (∀ st1, stepLoop st c confirm = Sum.inl st1 → st1.page * pageSz < st1.list.length) ∧
    (st.page = 0 → stepLoop st Cmd.prev confirm = checkPage st) ∧
    (st.list.length ≤ (st.page + 1) * pageSz →
      stepLoop st Cmd.next confirm = Sum.inr "End") := by
    refine ⟨?_, ?_, ?_⟩
    · intro st1 h
      rw [stepLoop] at h
      cases ha : applyCmd st c confirm with
      | inl st2 =>
        rw [ha] at h
        simp only [checkPage] at h
        by_cases hle : st2.list.length ≤ st2.page * pageSz
        · rw [if_pos hle] at h
          cases h
        · rw [if_neg hle] at h
          cases h
          omega
      | inr m =>
        rw [ha] at h
        cases h
    · intro h0
      have ha : applyCmd st Cmd.prev confirm = Sum.inl st := by
        obtain ⟨l, p⟩ := st
        simp only at h0
        subst h0
        simp [applyCmd]
      rw [stepLoop, ha]
    · intro hlast
      have ha : applyCmd st Cmd.next confirm =
          Sum.inl ⟨st.list, st.page + 1⟩ := rfl
      rw [stepLoop, ha]
      show checkPage ⟨st.list, st.page + 1⟩ = Sum.inr "End"
      rw [checkPage]
      exact if_pos (by simpa using hlast)

/-- Closed witness for `C6_pagination` at a concrete state. -/
theorem C6_pagination_witness :
    stepLoop ⟨[bY], 0⟩ Cmd.prev false = checkPage ⟨[bY], 0⟩ ∧
    stepLoop ⟨[bY], 0⟩ Cmd.next false = Sum.inr "End" := by
  have h := C6_pagination ⟨[bY], 0⟩ Cmd.prev false
  exact ⟨h.2.1 rfl, (C6_pagination ⟨[bY], 0⟩ Cmd.next false).2.2 (by decide)⟩

/-! Subject truncation: claim C9. -/

/-- A 31-character, 62-byte UTF-8 subject: 31 repetitions of the
two-byte character U+00E9. -/
def longSubject : List Nat := (List.replicate 31 [195, 169]).flatten

/-- A message whose subject is `longSubject`. -/
def msgSubj : Message := ⟨⟨[], [], longSubject⟩, 1, 0⟩

/-- **C9 counterexample**: a subject of 31 characters (62 bytes) is at
most 60 characters long, yet `classify` does not return it raw — Go's
`len` and slicing count bytes, so it truncates at byte 57 (splitting a
character) and appends the marker. -/
theorem C9_bytes_vs_chars_cex :
    utf8Length longSubject = 31 ∧
    utf8Length longSubject ≤ 60 ∧
    classify msgSubj "subject" ≠ longSubject ∧
    classify msgSubj "subject" = longSubject.take 57 ++ ellipsisBytes := by
  refine ⟨by decide, by decide, by decide, by decide⟩

/-- **C9 amended**: the subject classification key equals the raw
subject when it is at most 60 BYTES long, and otherwise equals the
first 57 BYTES followed by the single three-byte ellipsis marker
(byte counts, not character counts). -/
theorem C9_subject_truncation (m : Message) :
    classify m "subject" =
      (if m.Envelope.Subject.length ≤ 60 then m.Envelope.Subject
       else m.Envelope.Subject.take 57 ++ ellipsisBytes) := by
  by_cases h : m.Envelope.Subject.length ≤ 60
  · simp [classify, h, Nat.not_lt.mpr h]
  · simp [classify, h, Nat.lt_of_not_le h]

/-! Server resolver: claim C8. -/

/-- A network where no probe succeeds but an MX record exists. -/
def deadNet : ResolveNet := ⟨fun _ => false, ["mx1.example.com".data]⟩

/-- A network where exactly `imap.example.org:993` answers the probe. -/
def liveNet : ResolveNet :=
  ⟨fun h => decide (h = "imap.example.org:993".data), []⟩

/-- **C8 counterexample**: with no candidate reachable and an MX record
present, the fuller variant's resolver does not use the MX host on the
secure port and does not fail — it returns the bare domain on the
plaintext port 143 (it performs no MX lookup at all). -/
theorem C8_mx_fallback_cex :
    deadNet.reach "imap.example.com:993".data = false ∧
    deadNet.reach "mail.example.com:993".data = false ∧
    deadNet.reach "example.com:993".data = false ∧
    deadNet.mx = ["mx1.example.com".data] ∧
    guessServer "user@example.com".data deadNet = "example.com:143".data ∧
    guessServer "user@example.com".data deadNet ≠ "mx1.example.com:993".data := by
  refine ⟨by decide, by decide, by decide, by decide, by decide, by decide⟩

/-- **C8 amended**: the fuller variant's resolver probes, in order,
`imap.`, `mail.`, and the bare domain on the default secure port and
returns the first reachable candidate; when none is reachable it
returns the bare domain on port 143 — with no MX lookup and no error
(the function cannot fail).  (The older variant, lines 90-107, is the
one with the 5-entry probe list, MX fallback and error.) -/
theorem C8_resolver_policy (email : List Char) (net : ResolveNet) :
    (net.reach ("imap.".data ++ domainOf email ++ ":993".data) = true →
      guessServer email net = "imap.".data ++ domainOf email ++ ":993".data) ∧
    (net.reach ("imap.".data ++ domainOf email ++ ":993".data) = false →
      net.reach ("mail.".data ++ domainOf email ++ ":993".data) = true →
      guessServer email net = "mail.".data ++ domainOf email ++ ":993".data) ∧
    (net.reach ("imap.".data ++ domainOf email ++ ":993".data) = false →
      net.reach ("mail.".data ++ domainOf email ++ ":993".data) = false →
      net.reach (domainOf email ++ ":993".data) = true →
      guessServer email net = domainOf email ++ ":993".data) ∧
    (net.reach ("imap.".data ++ domainOf email ++ ":993".data) = false →
      net.reach ("mail.".data ++ domainOf email ++ ":993".data) = false →
      net.reach (domainOf email ++ ":993".data) = false →
      guessServer email net = domainOf email ++ ":143".data) := by
  refine ⟨?_, ?_, ?_, ?_⟩ <;>
    intro h1 <;>
    try intro h2 <;>
    try intro h3
  all_goals simp_all [guessServer, candidates993, firstReach]

/-- Closed witness for `C8_resolver_policy`: the first probe candidate
is reachable and wins. -/
theorem C8_resolver_policy_witness :
    guessServer "a@example.org".data liveNet = "imap.".data ++
      domainOf "a@example.org".data ++ ":993".data :=
  (C8_resolver_policy "a@example.org".data liveNet).1 (by decide)

/-- Closed witness for `C4_stats_invariant` on a concrete folder set. -/
theorem C4_stats_invariant_witness :
    ((scanStats "from" cexFolders).map bucket.Cnt).sum =
      (cexFolders.map (fun fm => fm.2.length)).sum :=
  (C4_stats_invariant "from" cexFolders).1

/-! Archive round trip: claim C5. -/

theorem digitChar_ne_slash (d : Nat) : digitChar d ≠ '/' := by
  unfold digitChar
  have h : d % 10 < 10 := Nat.mod_lt _ (by omega)
  set e := d % 10 with he
  interval_cases e <;> decide

theorem natCharsAux_no_slash (fuel n : Nat) : '/' ∉ natCharsAux fuel n := by
  induction fuel generalizing n with
  | zero => simp [natCharsAux]
  | succ fuel ih =>
    rw [natCharsAux]
    by_cases h : n < 10
    · rw [if_pos h]
      simp only [List.mem_singleton]
      exact fun e => digitChar_ne_slash n e.symm
    · rw [if_neg h]
      simp only [List.mem_append, List.mem_singleton]
      rintro (hc | hc)
      · exact ih (n / 10) hc
      · exact digitChar_ne_slash (n % 10) hc.symm

theorem entryName_tail_no_slash (uid : Nat) :
    ∀ c ∈ natChars uid ++ ".eml".data, c ≠ '/' := by
  intro c hc
  rcases List.mem_append.mp hc with h | h
  · intro e
    subst e
    exact natCharsAux_no_slash (uid + 1) uid h
  · intro e
    subst e
    revert h
    decide

theorem dirOf_entryName (f : List Char) (uid : Nat) : dirOf (entryName f uid) = f := by
  unfold dirOf entryName
  rw [if_pos (by simp)]
  have hrev : (f ++ '/' :: (natChars uid ++ ".eml".data)).reverse
      = (natChars uid ++ ".eml".data).reverse ++ '/' :: f.reverse := by
    simp
  rw [hrev]
  rw [List.dropWhile_append_of_pos
    (by
      intro a ha
      simp only [List.mem_reverse] at ha
      simpa using entryName_tail_no_slash uid a ha)]
  rw [List.dropWhile_cons_of_neg (by simp)]
  simp

theorem keysOf_appendMsg_absent (mbox : List (List Char × List (List Nat)))
    (f : List Char) (d : List Nat) (h : f ∉ mbox.map Prod.fst) :
    appendMsg mbox f d = mbox ++ [(f, [d])] := by
  induction mbox with
  | nil => simp [appendMsg]
  | cons e rest ih =>
    obtain ⟨g, l⟩ := e
    simp only [List.map_cons, List.mem_cons] at h
    push_neg at h
    rw [appendMsg, if_neg (fun e => h.1 e.symm), ih h.2]
    simp

theorem appendMsg_last (acc : List (List Char × List (List Nat)))
    (f : List Char) (l : List (List Nat)) (d : List Nat)
    (h : f ∉ acc.map Prod.fst) :
    appendMsg (acc ++ [(f, l)]) f d = acc ++ [(f, l ++ [d])] := by
  induction acc with
  | nil => simp [appendMsg]
  | cons e rest ih =>
    obtain ⟨g, l'⟩ := e
    simp only [List.map_cons, List.mem_cons] at h
    push_neg at h
    rw [List.cons_append, appendMsg, if_neg (fun e => h.1 e.symm), ih h.2]
    simp

theorem restoreInto_folder (f : List Char) (hf : cleanName f)
    (msgs : List (Nat × List Nat))
    (acc : List (List Char × List (List Nat))) (l : List (List Nat))
    (h : f ∉ acc.map Prod.fst) :
    restoreInto (acc ++ [(f, l)])
        (msgs.map (fun m => ArchiveEntry.mk (entryName f m.1) m.2))
      = acc ++ [(f, l ++ msgs.map (fun m => m.2))] := by
  induction msgs generalizing l with
  | nil => simp [restoreInto]
  | cons m rest ih =>
    simp only [List.map_cons]
    rw [restoreInto, List.foldl_cons]
    have hdir : dirOf (entryName f m.1) = f := dirOf_entryName f m.1
    rw [hdir, if_neg hf.2.2.1]
    rw [appendMsg_last acc f l m.2 h]
    have := ih (l ++ [m.2])
    rw [restoreInto] at this
    rw [this]
    simp

theorem restoreInto_append (acc : List (List Char × List (List Nat)))
    (es1 es2 : List ArchiveEntry) :
    restoreInto acc (es1 ++ es2) = restoreInto (restoreInto acc es1) es2 := by
  simp [restoreInto, List.foldl_append]

theorem restoreInto_backup (mbox : List (List Char × List (Nat × List Nat)))
    (acc : List (List Char × List (List Nat)))
    (hclean : ∀ fm ∈ mbox, cleanName fm.1)
    (hnodup : (mbox.map Prod.fst).Nodup)
    (hne : ∀ fm ∈ mbox, fm.2 ≠ [])
    (hdisj : ∀ fm ∈ mbox, fm.1 ∉ acc.map Prod.fst) :
    restoreInto acc (backupAll mbox) =
      acc ++ mbox.map (fun fm => (fm.1, fm.2.map (fun m => m.2))) := by
  induction mbox generalizing acc with
  | nil => simp [backupAll, restoreInto]
  | cons fm rest ih =>
    obtain ⟨f, msgs⟩ := fm
    obtain ⟨m0, msgs', rfl⟩ : ∃ m0 msgs', msgs = m0 :: msgs' := by
      cases msgs with
      | nil => exact absurd rfl (hne (f, []) (List.mem_cons_self _ _))
      | cons a b => exact ⟨a, b, rfl⟩
    have hf : cleanName f := hclean (f, m0 :: msgs') (List.mem_cons_self _ _)
    have hfacc : f ∉ acc.map Prod.fst := hdisj (f, m0 :: msgs') (List.mem_cons_self _ _)
    have hsplit : backupAll ((f, m0 :: msgs') :: rest) =
        ((m0 :: msgs').map (fun m => ArchiveEntry.mk (entryName f m.1) m.2)) ++
          backupAll rest := by
      simp [backupAll]
    rw [hsplit, restoreInto_append]
    have h1 : restoreInto acc
        ((m0 :: msgs').map (fun m => ArchiveEntry.mk (entryName f m.1) m.2)) =
        acc ++ [(f, (m0 :: msgs').map (fun m => m.2))] := by
      simp only [List.map_cons]
      rw [restoreInto, List.foldl_cons]
      simp only [dirOf_entryName, if_neg hf.2.2.1]
      rw [keysOf_appendMsg_absent acc f m0.2 hfacc]
      have h2 := restoreInto_folder f hf msgs' acc [m0.2] hfacc
      rw [restoreInto] at h2
      rw [h2]
      simp
    rw [h1]
    rw [ih (acc ++ [(f, (m0 :: msgs').map (fun m => m.2))])
      (fun g hg => hclean g (List.mem_cons_of_mem _ hg))
      (by simpa using (List.nodup_cons.mp (by simpa using hnodup)).2)
      (fun g hg => hne g (List.mem_cons_of_mem _ hg))
      ?_]
    · simp
    · intro g hg
      simp only [List.map_append, List.mem_append, List.map_cons, List.map_nil,
        List.mem_singleton, not_or]
      refine ⟨fun hmem => hdisj g (List.mem_cons_of_mem _ hg) hmem, ?_⟩
      have hfnotin : f ∉ rest.map Prod.fst :=
        (List.nodup_cons.mp (by simpa using hnodup)).1
      intro he
      exact hfnotin (he ▸ List.mem_map_of_mem Prod.fst hg)

/-- **C5**: backing up a mailbox whose (selectable) folders have
pairwise-distinct clean names and at least one message each, then
restoring the archive into an empty target mailbox, reproduces exactly
the same folders with byte-identical raw message content in the same
per-folder order — in particular the same folder-to-message-count
mapping.  (Only delivery timestamps differ: the restore appends with
the current time, which this model does not track.) -/
theorem C5_roundtrip (mbox : List (List Char × List (Nat × List Nat)))
    (hclean : ∀ fm ∈ mbox, cleanName fm.1)
    (hnodup : (mbox.map Prod.fst).Nodup)
    (hne : ∀ fm ∈ mbox, fm.2 ≠ []) :
    restoreAll (backupAll mbox) = mbox.map (fun fm => (fm.1, fm.2.map (fun m => m.2))) ∧
    (restoreAll (backupAll mbox)).map (fun fm => (fm.1, fm.2.length)) =
      mbox.map (fun fm => (fm.1, fm.2.length)) := by
  have h := restoreInto_backup mbox [] hclean hnodup hne (by simp)
  rw [restoreAll, h]
  constructor
  · simp
  · simp [List.map_map, Function.comp]

/-- Concrete mailbox for the C5 witness: INBOX with two messages,
Sent with one. -/
def cexMbox : List (List Char × List (Nat × List Nat)) :=
  [("INBOX".data, [(1, [104, 105]), (2, [33])]), ("Sent".data, [(3, [97])])]

/-- Closed witness for `C5_roundtrip` on `cexMbox`. -/
theorem C5_roundtrip_witness :
    restoreAll (backupAll cexMbox) =
      [("INBOX".data, [[104, 105], [33]]), ("Sent".data, [[97]])] := by
  rw [(C5_roundtrip cexMbox (by decide) (by decide) (by decide)).1]
  decide

end ImapTool
